import Mathlib

/-
  Verification of the kubesight approximate query engine.

  The Go source is shallowly embedded:
  * machine integers (uint32 / uint64) become Nat with explicit reduction
    modulo 2^32 / 2^64 at every operation that can wrap;
  * float64 values (rates, metric values) are modelled over the rationals;
  * byte slices become lists of Nat (byte values);
  * Go maps become association lists or Option-valued functions;
  * the pseudo-random draws (rand.Float64, rand.Intn) are passed to the
    embedded operations as explicit oracle arguments;
  * arrays indexed only at in-range positions become total functions or
    lists, as noted at each definition.
-/

/-! ### Byte-level hash functions (Go hash/fnv)

  fnv64a models fnv.New64a + Write + Sum64 (FNV-1a, 64 bit):
  starting from the offset basis, each byte is XORed in and the state is
  multiplied by the FNV prime, wrapping modulo 2^64.
  fnv32a models fnv.New32a (FNV-1a, 32 bit) and fnv32 models fnv.New32
  (FNV-1, 32 bit: multiply first, then XOR the byte). -/

def fnv64a (data : List Nat) : Nat :=
  data.foldl (fun h b => ((h ^^^ b) * 1099511628211) % 2 ^ 64) 14695981039346656037

def fnv32a (data : List Nat) : Nat :=
  data.foldl (fun h b => ((h ^^^ b) * 16777619) % 2 ^ 32) 2166136261

def fnv32 (data : List Nat) : Nat :=
  data.foldl (fun h b => (h * 16777619) % 2 ^ 32 ^^^ b) 2166136261

/-- Bytes of a Go string ([]byte conversion). The repository only hashes
  ASCII keys of the form cluster/namespace/pod/metric, for which the UTF-8
  bytes coincide with the character code points. -/
def strBytes (s : String) : List Nat :=
  s.data.map Char.toNat

/-! ### BloomFilter (internal/probabilistic, bloom filter file)

  The Go struct holds bits []bool, size, numHashes, numItems (all uint32).
  The bit vector is modelled as a total function Nat → Bool; the Go code
  only ever indexes it at hash % size. -/

structure BloomFilter where
  bits : Nat → Bool
  size : Nat
  numHashes : Nat
  numItems : Nat

/-- NewBloomFilter(size, numHashes): all bits clear, numItems 0. -/
def newBloomFilter (size numHashes : Nat) : BloomFilter :=
  { bits := fun _ => false, size := size, numHashes := numHashes, numItems := 0 }

/-- hash2 forces the FNV-1 hash odd (bf.hash2). -/
def bfHash2 (data : List Nat) : Nat :=
  let h := fnv32 data
  if h % 2 = 0 then h + 1 else h

/-- getHashes: double hashing, hashes[i] = hash1 + i*hash2 in uint32
  arithmetic. -/
def bfGetHashes (bf : BloomFilter) (data : List Nat) : List Nat :=
  (List.range bf.numHashes).map (fun i => (fnv32a data + i * bfHash2 data) % 2 ^ 32)

/-- Add(item): set the bit hash % size for every hash, then increment
  numItems (uint32). -/
def bfAdd (bf : BloomFilter) (item : List Nat) : BloomFilter :=
  { bf with
    bits := (bfGetHashes bf item).foldl
      (fun bs h => fun j => if j = h % bf.size then true else bs j) bf.bits,
    numItems := (bf.numItems + 1) % 2 ^ 32 }

/-- Contains(item): true iff the bit hash % size is set for every hash
  (the Go loop returns false on the first clear bit). -/
def bfContains (bf : BloomFilter) (item : List Nat) : Bool :=
  (bfGetHashes bf item).all (fun h => bf.bits (h % bf.size))

/-- Union(other): error when the shapes differ, otherwise OR the first
  size bits together and add the inserted counts (uint32). -/
def bfUnion (bf other : BloomFilter) : Except String BloomFilter :=
  if bf.size = other.size ∧ bf.numHashes = other.numHashes then
    .ok { bf with
      bits := fun j => if j < bf.size then (bf.bits j || other.bits j) else bf.bits j,
      numItems := (bf.numItems + other.numItems) % 2 ^ 32 }
  else
    .error "cannot union bloom filters with different parameters"

/-- Folding Add over a list of further items (an arbitrary continuation of
  the update stream). -/
def bfAddAll (bf : BloomFilter) (items : List (List Nat)) : BloomFilter :=
  items.foldl bfAdd bf

/-! ### CountMinSketch (internal/probabilistic, count-min file)

  count is a depth × width matrix of uint32 cells, modelled as a total
  function row → column → Nat (the Go code only reads and writes
  row i < depth at column getBucket hash i < width).  hashA[i] = 2i+1 and
  hashB[i] = 3i+7 are the per-row constants set by the constructor. -/

structure CountMinSketch where
  width : Nat
  depth : Nat
  count : Nat → Nat → Nat
  hashA : Nat → Nat
  hashB : Nat → Nat
  total : Nat

def newCountMinSketch (width depth : Nat) : CountMinSketch :=
  { width := width, depth := depth,
    count := fun _ _ => 0,
    hashA := fun i => (i * 2 + 1) % 2 ^ 32,
    hashB := fun i => (i * 3 + 7) % 2 ^ 32,
    total := 0 }

/-- getBucket(hash, row): (a*hash + b) mod width, computed in uint64. -/
def cmsGetBucket (cms : CountMinSketch) (hash : Nat) (row : Nat) : Nat :=
  (cms.hashA row * hash + cms.hashB row) % 2 ^ 64 % cms.width

/-- Update(item, count): add count to row i at its bucket for every row
  i < depth (uint32 cells wrap modulo 2^32); add count to the uint64
  total.  The Go loop touches each row once, at pairwise distinct row
  indices, which the pointwise functional update reproduces. -/
def cmsUpdate (cms : CountMinSketch) (item : List Nat) (c : Nat) : CountMinSketch :=
  let hash := fnv64a item
  { cms with
    count := fun i b =>
      if i < cms.depth ∧ b = cmsGetBucket cms hash i then
        (cms.count i b + c) % 2 ^ 32
      else cms.count i b,
    total := (cms.total + c) % 2 ^ 64 }

/-- Estimate(item): minimum of the item's cells over all rows, starting
  from math.MaxUint32. -/
def cmsEstimate (cms : CountMinSketch) (item : List Nat) : Nat :=
  let hash := fnv64a item
  (List.range cms.depth).foldl
    (fun mn i => min mn (cms.count i (cmsGetBucket cms hash i))) (2 ^ 32 - 1)

/-- A stream of Update operations (item bytes, uint32 delta), applied in
  order. -/
def cmsApplyUpdates (cms : CountMinSketch) (ops : List (List Nat × Nat)) : CountMinSketch :=
  ops.foldl (fun c op => cmsUpdate c op.1 op.2) cms

/-- Sum of all deltas of a stream of Update operations. -/
def cmsSumDeltas (ops : List (List Nat × Nat)) : Nat :=
  (ops.map Prod.snd).sum

/-- True post-sampling count of a key: the sum of the deltas applied for
  exactly that key. -/
def cmsTrueCount (ops : List (List Nat × Nat)) (k : List Nat) : Nat :=
  ((ops.filter (fun op => op.1 = k)).map Prod.snd).sum

/-! ### HyperLogLog (internal/probabilistic, hyperloglog file) -/

/-- countLeadingZeros, translated branch for branch from the Go binary
  search; every left shift is a uint64 shift (reduce modulo 2^64, though
  the shifted operand is below the mask so no wrap occurs). -/
def clzStep (k : Nat) (p : Nat × Nat) : Nat × Nat :=
  if p.2 ≤ 2 ^ (64 - k) - 1 then (p.1 + k, p.2 <<< k % 2 ^ 64) else p

def clz64 (x : Nat) : Nat :=
  if x = 0 then 64
  else
    let p := clzStep 32 (0, x)
    let p := clzStep 16 p
    let p := clzStep 8 p
    let p := clzStep 4 p
    let p := clzStep 2 p
    if p.2 ≤ 2 ^ 63 - 1 then p.1 + 1 else p.1

structure HyperLogLog where
  precision : Nat
  m : Nat
  buckets : List Nat

/-- NewHyperLogLog(precision): out-of-range precision (uint8 outside
  [4, 16]) silently becomes 14; m = 2^precision registers, all zero.
  (alpha is only used by Count, which is outside the scope of the claims;
  it is not carried in the state.) -/
def newHyperLogLog (precision : Nat) : HyperLogLog :=
  let precision := if precision < 4 ∨ 16 < precision then 14 else precision
  let m := 2 ^ precision
  { precision := precision, m := m, buckets := List.replicate m 0 }

/-- bucketIdx of Add(data): the top precision bits of the 64-bit hash. -/
def hllIdx (hll : HyperLogLog) (data : List Nat) : Nat :=
  fnv64a data >>> (64 - hll.precision)

/-- w of Add: the hash shifted left by precision (uint64). -/
def hllW (hll : HyperLogLog) (data : List Nat) : Nat :=
  fnv64a data <<< hll.precision % 2 ^ 64

/-- leadingZeros of Add: countLeadingZeros(w) + 1 when w is non-zero,
  else the initial value 1. -/
def hllVal (hll : HyperLogLog) (data : List Nat) : Nat :=
  if hllW hll data ≠ 0 then clz64 (hllW hll data) + 1 else 1

def hllAdd (hll : HyperLogLog) (data : List Nat) : HyperLogLog :=
  if hll.buckets.getD (hllIdx hll data) 0 < hllVal hll data then
    { hll with buckets := hll.buckets.set (hllIdx hll data) (hllVal hll data) }
  else hll

/-! ### Bloom filter lemmas and claims C3 / C6 -/

theorem bfAdd_size (bf : BloomFilter) (x : List Nat) : (bfAdd bf x).size = bf.size := rfl

theorem bfAdd_numHashes (bf : BloomFilter) (x : List Nat) :
    (bfAdd bf x).numHashes = bf.numHashes := rfl

theorem bfAddAll_size (bf : BloomFilter) (l : List (List Nat)) :
    (bfAddAll bf l).size = bf.size := by
  induction l generalizing bf with
  | nil => rfl
  | cons x xs ih => simpa [bfAddAll] using ih (bfAdd bf x)

theorem bfAddAll_numHashes (bf : BloomFilter) (l : List (List Nat)) :
    (bfAddAll bf l).numHashes = bf.numHashes := by
  induction l generalizing bf with
  | nil => rfl
  | cons x xs ih => simpa [bfAddAll] using ih (bfAdd bf x)

theorem bfGetHashes_congr (bf bf' : BloomFilter) (x : List Nat)
    (h : bf.numHashes = bf'.numHashes) : bfGetHashes bf x = bfGetHashes bf' x := by
  simp [bfGetHashes, h]

/-- A single bit-setting fold step never clears a bit. -/
theorem bfSetFold_mono (l : List Nat) (n : Nat) (bs : Nat → Bool) (j : Nat)
    (h : bs j = true) :
    (l.foldl (fun bs h => fun j => if j = h % n then true else bs j) bs) j = true := by
  induction l generalizing bs with
  | nil => exact h
  | cons a as ih =>
      refine ih _ ?_
      by_cases hj : j = a % n
      · simp [hj]
      · simpa [hj] using h

/-- Every index written by the fold ends up set. -/
theorem bfSetFold_mem (l : List Nat) (n : Nat) (bs : Nat → Bool) (a : Nat)
    (ha : a ∈ l) :
    (l.foldl (fun bs h => fun j => if j = h % n then true else bs j) bs) (a % n) = true := by
  induction l generalizing bs with
  | nil => cases ha
  | cons b bs' ih =>
      rcases List.mem_cons.1 ha with h | h
      · subst h
        rw [List.foldl_cons]
        exact bfSetFold_mono _ _ _ _ (if_pos rfl)
      · exact ih _ h

theorem bfAdd_bits_mono (bf : BloomFilter) (x : List Nat) (j : Nat)
    (h : bf.bits j = true) : (bfAdd bf x).bits j = true :=
  bfSetFold_mono _ _ _ _ h

theorem bfAddAll_bits_mono (bf : BloomFilter) (l : List (List Nat)) (j : Nat)
    (h : bf.bits j = true) : (bfAddAll bf l).bits j = true := by
  induction l generalizing bf with
  | nil => exact h
  | cons x xs ih => exact ih (bfAdd bf x) (bfAdd_bits_mono bf x j h)

/-- C3. For every key added to the membership sketch via add(bytes), and
  for every state reachable by further add operations, contains(bytes)
  returns true: the bloom filter has no false negatives.  The size
  hypothesis reflects that the Go code computes hash % size, which panics
  for size 0. -/
theorem bloom_no_false_negatives (bf : BloomFilter) (item : List Nat)
    (rest : List (List Nat)) (hsize : 0 < bf.size) :
    bfContains (bfAddAll (bfAdd bf item) rest) item = true := by
  have hnum : (bfAddAll (bfAdd bf item) rest).numHashes = bf.numHashes := by
    rw [bfAddAll_numHashes, bfAdd_numHashes]
  have hsz : (bfAddAll (bfAdd bf item) rest).size = bf.size := by
    rw [bfAddAll_size, bfAdd_size]
  rw [bfContains, List.all_eq_true]
  intro h hh
  rw [bfGetHashes_congr _ bf _ hnum] at hh
  rw [hsz]
  exact bfAddAll_bits_mono _ _ _ (bfSetFold_mem _ _ _ _ hh)

/-- Witness for C3: a concrete filter, a concrete added key, concrete
  later insertions. -/
theorem bloom_no_false_negatives_witness :
    0 < (newBloomFilter 8 2).size ∧
      bfContains (bfAddAll (bfAdd (newBloomFilter 8 2) [97]) [[98], [99]]) [97] = true :=
  ⟨by decide, bloom_no_false_negatives (newBloomFilter 8 2) [97] [[98], [99]] (by decide)⟩

/-- Projection used to observe the inserted-count through Union's Except
  result. -/
def exceptNumItems : Except String BloomFilter → Option Nat
  | .ok b => some b.numItems
  | .error _ => none

/-- Counterexample to C6 as stated: after a single Add the inserted-count
  is 1, and union of the filter with itself yields inserted-count 2, so
  a.union(a) does not leave the complete state of a unchanged. -/
theorem bloom_union_not_idempotent_counterexample :
    exceptNumItems (bfUnion (bfAdd (newBloomFilter 8 2) [97]) (bfAdd (newBloomFilter 8 2) [97])) = some 2 ∧
      (bfAdd (newBloomFilter 8 2) [97]).numItems = 1 := by
  constructor
  · rfl
  · rfl

/-- C6 amended: a.union(a) succeeds and leaves the bit vector unchanged,
  but doubles the inserted-count (modulo 2^32); union is idempotent on
  the bit vector only. -/
theorem bloom_union_self (a : BloomFilter) :
    bfUnion a a = .ok { a with numItems := (a.numItems + a.numItems) % 2 ^ 32 } := by
  have hb : (fun j => if j < a.size then (a.bits j || a.bits j) else a.bits j) = a.bits := by
    funext j
    by_cases hj : j < a.size <;> simp [hj]
  rw [bfUnion, if_pos ⟨rfl, rfl⟩]
  simp only [hb]

/-! ### HyperLogLog lemmas and claims C4 / C9 -/

theorem fnv64a_lt (data : List Nat) : fnv64a data < 2 ^ 64 := by
  rw [fnv64a]
  suffices h : ∀ (l : List Nat) (a : Nat), a < 2 ^ 64 →
      l.foldl (fun h b => ((h ^^^ b) * 1099511628211) % 2 ^ 64) a < 2 ^ 64 from
    h data _ (by norm_num)
  intro l
  induction l with
  | nil => exact fun a ha => ha
  | cons b bs ih =>
      intro a ha
      rw [List.foldl_cons]
      exact ih _ (Nat.mod_lt _ (by norm_num))

/-- One step of the Go countLeadingZeros binary search: if the running
  value x is at least 2^(64-2k) (established by the previous step), the
  step multiplies it by a power of two that brings it into
  [2^(64-k), 2^64). -/
theorem clzStep_spec (k n x : Nat) (hk : k ≤ 32)
    (hlo : 2 ^ (64 - 2 * k) ≤ x) (hhi : x < 2 ^ 64) :
    ∃ j, clzStep k (n, x) = (n + j, x * 2 ^ j) ∧
      2 ^ (64 - k) ≤ x * 2 ^ j ∧ x * 2 ^ j < 2 ^ 64 := by
  rw [clzStep]
  by_cases h : x ≤ 2 ^ (64 - k) - 1
  · have hpos : (0 : Nat) < 2 ^ (64 - k) := Nat.pos_pow_of_pos _ (by norm_num)
    have hx' : x < 2 ^ (64 - k) := by omega
    have hxk : x * 2 ^ k < 2 ^ 64 := by
      calc x * 2 ^ k < 2 ^ (64 - k) * 2 ^ k :=
            mul_lt_mul_of_pos_right hx' (Nat.pos_pow_of_pos _ (by norm_num))
        _ = 2 ^ 64 := by rw [← pow_add]; congr 1; omega
    refine ⟨k, ?_, ?_, hxk⟩
    · rw [if_pos h, Nat.shiftLeft_eq, Nat.mod_eq_of_lt hxk]
    · calc (2 : Nat) ^ (64 - k) = 2 ^ (64 - 2 * k) * 2 ^ k := by
            rw [← pow_add]; congr 1; omega
        _ ≤ x * 2 ^ k := Nat.mul_le_mul_right _ hlo
  · have hpos : (0 : Nat) < 2 ^ (64 - k) := Nat.pos_pow_of_pos _ (by norm_num)
    refine ⟨0, ?_, ?_, ?_⟩
    · rw [if_neg h]
      simp
    · simpa using by omega
    · simpa using hhi

/-- The Go countLeadingZeros normalizes its argument: shifting x left by
  clz64 x brings the leading one bit to the top bit, i.e.
  x * 2^(clz64 x) lies in [2^63, 2^64). -/
theorem clz64_spec (x : Nat) (hx : 0 < x) (hhi : x < 2 ^ 64) :
    2 ^ 63 ≤ x * 2 ^ clz64 x ∧ x * 2 ^ clz64 x < 2 ^ 64 := by
  obtain ⟨j1, e1, lo1, hi1⟩ :=
    clzStep_spec 32 0 x (by norm_num) (by simpa using hx) hhi
  obtain ⟨j2, e2, lo2, hi2⟩ :=
    clzStep_spec 16 (0 + j1) (x * 2 ^ j1) (by norm_num)
      (by exact_mod_cast lo1) hi1
  obtain ⟨j3, e3, lo3, hi3⟩ :=
    clzStep_spec 8 (0 + j1 + j2) (x * 2 ^ j1 * 2 ^ j2) (by norm_num)
      (by exact_mod_cast lo2) hi2
  obtain ⟨j4, e4, lo4, hi4⟩ :=
    clzStep_spec 4 (0 + j1 + j2 + j3) (x * 2 ^ j1 * 2 ^ j2 * 2 ^ j3) (by norm_num)
      (by exact_mod_cast lo3) hi3
  obtain ⟨j5, e5, lo5, hi5⟩ :=
    clzStep_spec 2 (0 + j1 + j2 + j3 + j4) (x * 2 ^ j1 * 2 ^ j2 * 2 ^ j3 * 2 ^ j4)
      (by norm_num) (by exact_mod_cast lo4) hi4
  have hclz : clz64 x =
      if x * 2 ^ j1 * 2 ^ j2 * 2 ^ j3 * 2 ^ j4 * 2 ^ j5 ≤ 2 ^ 63 - 1 then
        0 + j1 + j2 + j3 + j4 + j5 + 1
      else 0 + j1 + j2 + j3 + j4 + j5 := by
    rw [clz64, if_neg (by omega)]
    simp only [e1, e2, e3, e4, e5]
  set y := x * 2 ^ j1 * 2 ^ j2 * 2 ^ j3 * 2 ^ j4 * 2 ^ j5 with hy
  have h62 : 2 ^ 62 ≤ y := by exact_mod_cast lo5
  have hxy5 : x * 2 ^ (j1 + j2 + j3 + j4 + j5) = y := by
    rw [hy]; ring
  have hxy6 : x * 2 ^ (j1 + j2 + j3 + j4 + j5 + 1) = y * 2 := by
    rw [hy]; ring
  by_cases hcase : y ≤ 2 ^ 63 - 1
  · rw [hclz, if_pos hcase,
      show 0 + j1 + j2 + j3 + j4 + j5 + 1 = j1 + j2 + j3 + j4 + j5 + 1 by omega, hxy6]
    omega
  · rw [hclz, if_neg hcase,
      show 0 + j1 + j2 + j3 + j4 + j5 = j1 + j2 + j3 + j4 + j5 by omega, hxy5]
    constructor
    · omega
    · exact hi5

/-- The register index selected by Add is in range: it is the hash
  divided by 2^(64 - precision), and the hash is below 2^64. -/
theorem hllIdx_lt (hll : HyperLogLog) (data : List Nat) (hprec : hll.precision ≤ 16)
    (hlen : hll.buckets.length = 2 ^ hll.precision) :
    hllIdx hll data < hll.buckets.length := by
  rw [hlen, hllIdx, Nat.shiftRight_eq_div_pow]
  apply Nat.div_lt_of_lt_mul
  calc fnv64a data < 2 ^ 64 := fnv64a_lt data
    _ = 2 ^ (64 - hll.precision) * 2 ^ hll.precision := by
        rw [← pow_add]; congr 1; omega

/-- C4 amended. In add(bytes) the top p bits of the hash select the
  register (an index below 2^p); the selected register becomes the
  maximum of its old value and the candidate value v; all other
  registers are unchanged; when the remaining bits w are non-zero,
  v = countLeadingZeros(w) + 1 is exactly the 1-based position of the
  leading one bit of w (that is, 2^(64-v) ≤ w < 2^(64-v+1)); when the
  remaining bits are all zero, the value used is 1 (not register
  width + 1). -/
theorem hllAdd_spec (hll : HyperLogLog) (data : List Nat)
    (hprec : hll.precision ≤ 16) (hlen : hll.buckets.length = 2 ^ hll.precision) :
    (hllAdd hll data).buckets.getD (hllIdx hll data) 0 =
      max (hll.buckets.getD (hllIdx hll data) 0) (hllVal hll data)
    ∧ (∀ i, i ≠ hllIdx hll data →
        (hllAdd hll data).buckets.getD i 0 = hll.buckets.getD i 0)
    ∧ (hllW hll data ≠ 0 →
        2 ^ (64 - hllVal hll data) ≤ hllW hll data ∧
          hllW hll data < 2 ^ (64 - hllVal hll data + 1))
    ∧ (hllW hll data = 0 → hllVal hll data = 1) := by
  have hidx := hllIdx_lt hll data hprec hlen
  refine ⟨?_, ?_, ?_, ?_⟩
  · rw [hllAdd]
    by_cases hlt : hll.buckets.getD (hllIdx hll data) 0 < hllVal hll data
    · rw [if_pos hlt]
      simp only
      rw [List.getD_eq_getElem?_getD, List.getElem?_set_self hidx]
      exact (Nat.max_eq_right hlt.le).symm
    · rw [if_neg hlt]
      exact (Nat.max_eq_left (Nat.not_lt.1 hlt)).symm
  · intro i hi
    rw [hllAdd]
    by_cases hlt : hll.buckets.getD (hllIdx hll data) 0 < hllVal hll data
    · rw [if_pos hlt]
      simp only
      rw [List.getD_eq_getElem?_getD, List.getElem?_set_ne (Ne.symm hi),
        ← List.getD_eq_getElem?_getD]
    · rw [if_neg hlt]
  · intro hw
    have hwlt : hllW hll data < 2 ^ 64 := Nat.mod_lt _ (by norm_num)
    have hwpos : 0 < hllW hll data := Nat.pos_of_ne_zero hw
    obtain ⟨hlo, hhi⟩ := clz64_spec (hllW hll data) hwpos hwlt
    set c := clz64 (hllW hll data) with hc
    have hc63 : c ≤ 63 := by
      by_contra hcon
      have h64c : (2 : Nat) ^ 64 ≤ 2 ^ c := Nat.pow_le_pow_right (by norm_num) (by omega)
      have : (2 : Nat) ^ 64 ≤ hllW hll data * 2 ^ c :=
        le_trans h64c (Nat.le_mul_of_pos_left _ hwpos)
      omega
    have hval : hllVal hll data = c + 1 := by
      rw [hllVal, if_pos hw]
    rw [hval, show 64 - (c + 1) = 63 - c by omega, show 63 - c + 1 = 64 - c by omega]
    have hp2 : (0 : Nat) < 2 ^ c := Nat.pos_pow_of_pos _ (by norm_num)
    constructor
    · apply Nat.le_of_mul_le_mul_right _ hp2
      calc 2 ^ (63 - c) * 2 ^ c = 2 ^ 63 := by rw [← pow_add]; congr 1; omega
        _ ≤ hllW hll data * 2 ^ c := hlo
    · exact Nat.lt_of_mul_lt_mul_right
        (hhi.trans_eq (by rw [← pow_add]; congr 1; omega))
  · intro hw
    rw [hllVal, if_neg (by simpa using hw)]

/-- Witness for C4 amended: the concrete register update for key byte 97
  on a fresh precision-4 sketch, with the hypotheses discharged. -/
theorem hllAdd_spec_witness :
    (hllAdd (newHyperLogLog 4) [97]).buckets.getD (hllIdx (newHyperLogLog 4) [97]) 0 =
      max ((newHyperLogLog 4).buckets.getD (hllIdx (newHyperLogLog 4) [97]) 0)
        (hllVal (newHyperLogLog 4) [97]) :=
  (hllAdd_spec (newHyperLogLog 4) [97] (by decide) (by decide)).1

/-- Counterexample to C4 as stated: for key byte 97 on a fresh
  precision-4 sketch the remaining bits w are non-zero with their leading
  one in the first position (clz64 w = 0, so the 1-based position is
  clz64 w + 1 = 1); the register receives 1, not
  1 + (1-based position) = 2 as the claim states. -/
theorem hllAdd_value_counterexample :
    (hllAdd (newHyperLogLog 4) [97]).buckets.getD (hllIdx (newHyperLogLog 4) [97]) 0 =
      clz64 (hllW (newHyperLogLog 4) [97]) + 1
    ∧ (hllAdd (newHyperLogLog 4) [97]).buckets.getD (hllIdx (newHyperLogLog 4) [97]) 0 ≠
      1 + (clz64 (hllW (newHyperLogLog 4) [97]) + 1) := by
  constructor
  · decide
  · decide

/-- C9. The cardinality-sketch constructor never fails: precision outside
  [4, 16] silently becomes 14 with 2^14 registers; precision in [4, 16]
  allocates exactly 2^p registers.  The bound p < 256 reflects the uint8
  argument type. -/
theorem newHyperLogLog_spec (p : Nat) (hp : p < 256) :
    ((p < 4 ∨ 16 < p) →
      (newHyperLogLog p).precision = 14 ∧ (newHyperLogLog p).buckets.length = 2 ^ 14)
    ∧ (4 ≤ p → p ≤ 16 →
      (newHyperLogLog p).precision = p ∧ (newHyperLogLog p).buckets.length = 2 ^ p) := by
  constructor
  · intro h
    simp only [newHyperLogLog]
    rw [if_pos h]
    exact ⟨rfl, List.length_replicate ..⟩
  · intro h1 h2
    have h : ¬(p < 4 ∨ 16 < p) := by omega
    simp only [newHyperLogLog]
    rw [if_neg h]
    exact ⟨rfl, List.length_replicate ..⟩

/-- Witness for C9: an out-of-range precision 20 and an in-range
  precision 8. -/
theorem newHyperLogLog_spec_witness :
    ((newHyperLogLog 20).precision = 14 ∧ (newHyperLogLog 20).buckets.length = 2 ^ 14)
    ∧ ((newHyperLogLog 8).precision = 8 ∧ (newHyperLogLog 8).buckets.length = 2 ^ 8) :=
  ⟨(newHyperLogLog_spec 20 (by norm_num)).1 (by norm_num),
   (newHyperLogLog_spec 8 (by norm_num)).2 (by norm_num) (by norm_num)⟩

/-! ### Count-min sketch lemmas and claim C2 -/

theorem cmsUpdate_depth (cms : CountMinSketch) (it : List Nat) (d : Nat) :
    (cmsUpdate cms it d).depth = cms.depth := rfl

theorem cmsUpdate_getBucket (cms : CountMinSketch) (it : List Nat) (d : Nat)
    (hash i : Nat) : cmsGetBucket (cmsUpdate cms it d) hash i = cmsGetBucket cms hash i := rfl

theorem cmsApplyUpdates_depth (ops : List (List Nat × Nat)) (cms : CountMinSketch) :
    (cmsApplyUpdates cms ops).depth = cms.depth := by
  induction ops generalizing cms with
  | nil => rfl
  | cons op rest ih => simpa [cmsApplyUpdates] using ih (cmsUpdate cms op.1 op.2)

theorem cmsApplyUpdates_getBucket (ops : List (List Nat × Nat)) (cms : CountMinSketch)
    (hash i : Nat) :
    cmsGetBucket (cmsApplyUpdates cms ops) hash i = cmsGetBucket cms hash i := by
  induction ops generalizing cms with
  | nil => rfl
  | cons op rest ih => simpa [cmsApplyUpdates] using ih (cmsUpdate cms op.1 op.2)

theorem cmsSumDeltas_cons (op : List Nat × Nat) (rest : List (List Nat × Nat)) :
    cmsSumDeltas (op :: rest) = op.2 + cmsSumDeltas rest := by
  simp [cmsSumDeltas]

theorem cmsTrueCount_cons (op : List Nat × Nat) (rest : List (List Nat × Nat)) (k : List Nat) :
    cmsTrueCount (op :: rest) k =
      (if op.1 = k then op.2 else 0) + cmsTrueCount rest k := by
  by_cases h : op.1 = k <;> simp [cmsTrueCount, List.filter_cons, h]

theorem cmsTrueCount_le_sumDeltas (ops : List (List Nat × Nat)) (k : List Nat) :
    cmsTrueCount ops k ≤ cmsSumDeltas ops := by
  induction ops with
  | nil => simp [cmsTrueCount, cmsSumDeltas]
  | cons op rest ih =>
      rw [cmsTrueCount_cons, cmsSumDeltas_cons]
      by_cases h : op.1 = k <;> simp [h] <;> omega

/-- As long as the key's cell plus all remaining deltas stays below 2^32,
  no wrap occurs in that cell and the cell absorbs at least the key's own
  deltas. -/
theorem cmsApplyUpdates_count_ge (ops : List (List Nat × Nat)) (cms : CountMinSketch)
    (k : List Nat) (i : Nat) (hi : i < cms.depth)
    (hov : cms.count i (cmsGetBucket cms (fnv64a k) i) + cmsSumDeltas ops < 2 ^ 32) :
    cms.count i (cmsGetBucket cms (fnv64a k) i) + cmsTrueCount ops k ≤
      (cmsApplyUpdates cms ops).count i (cmsGetBucket cms (fnv64a k) i) := by
  induction ops generalizing cms with
  | nil =>
      simp [cmsApplyUpdates, cmsTrueCount]
  | cons op rest ih =>
      rw [cmsSumDeltas_cons] at hov
      rw [cmsTrueCount_cons]
      have hstep : cmsApplyUpdates cms (op :: rest) =
          cmsApplyUpdates (cmsUpdate cms op.1 op.2) rest := rfl
      rw [hstep]
      set B := cmsGetBucket cms (fnv64a k) i with hB
      have hBkeep : cmsGetBucket (cmsUpdate cms op.1 op.2) (fnv64a k) i = B := rfl
      have hdep : i < (cmsUpdate cms op.1 op.2).depth := hi
      by_cases hhit : i < cms.depth ∧ B = cmsGetBucket cms (fnv64a op.1) i
      · have hcell : (cmsUpdate cms op.1 op.2).count i B = cms.count i B + op.2 := by
          rw [cmsUpdate]
          simp only [if_pos hhit]
          exact Nat.mod_eq_of_lt (by omega)
        have := ih (cmsUpdate cms op.1 op.2) hdep (by rw [hBkeep, hcell]; omega)
        rw [hBkeep, hcell] at this
        by_cases hk : op.1 = k
        · rw [if_pos hk]
          omega
        · rw [if_neg hk]
          omega
      · have hcell : (cmsUpdate cms op.1 op.2).count i B = cms.count i B := by
          rw [cmsUpdate]
          simp only [if_neg hhit]
        have := ih (cmsUpdate cms op.1 op.2) hdep (by rw [hBkeep, hcell]; omega)
        rw [hBkeep, hcell] at this
        have hk : ¬(op.1 = k) := by
          intro hkk
          exact hhit ⟨hi, by rw [hB, hkk]⟩
        rw [if_neg hk]
        omega

/-- A fold of min stays at or above any lower bound of the initial value
  and of every folded element. -/
theorem le_foldl_min (l : List Nat) (f : Nat → Nat) (c init : Nat)
    (hinit : c ≤ init) (h : ∀ i ∈ l, c ≤ f i) :
    c ≤ l.foldl (fun mn i => min mn (f i)) init := by
  induction l generalizing init with
  | nil => exact hinit
  | cons a as ih =>
      rw [List.foldl_cons]
      exact ih _ (le_min hinit (h a (List.mem_cons_self a as)))
        (fun i hi => h i (List.mem_cons_of_mem a hi))

/-- C2 amended. For every sketch freshly constructed with positive width
  (the Go code computes hash % width, which panics at width 0) and every
  stream of updates whose total delta mass stays below 2^32 (so that no
  uint32 cell wraps), the estimate for any key is at least the sum of
  the deltas applied for that key: the one-sided error guarantee. -/
theorem cms_estimate_one_sided (w d : Nat) (hw : 0 < w) (ops : List (List Nat × Nat))
    (k : List Nat) (hov : cmsSumDeltas ops < 2 ^ 32) :
    cmsTrueCount ops k ≤ cmsEstimate (cmsApplyUpdates (newCountMinSketch w d) ops) k := by
  rw [cmsEstimate]
  have htc := cmsTrueCount_le_sumDeltas ops k
  apply le_foldl_min
  · omega
  · intro i hirange
    have hi : i < d := by
      have hd : (cmsApplyUpdates (newCountMinSketch w d) ops).depth = d :=
        cmsApplyUpdates_depth ops (newCountMinSketch w d)
      rw [List.mem_range, hd] at hirange
      exact hirange
    have hbk : cmsGetBucket (cmsApplyUpdates (newCountMinSketch w d) ops) (fnv64a k) i =
        cmsGetBucket (newCountMinSketch w d) (fnv64a k) i :=
      cmsApplyUpdates_getBucket ops (newCountMinSketch w d) (fnv64a k) i
    rw [hbk]
    have h0 : (newCountMinSketch w d).count i
        (cmsGetBucket (newCountMinSketch w d) (fnv64a k) i) = 0 := rfl
    have := cmsApplyUpdates_count_ge ops (newCountMinSketch w d) k i hi (by rw [h0]; omega)
    rw [h0] at this
    simpa using this

/-- Witness for C2 amended: a small concrete sketch and stream. -/
theorem cms_estimate_one_sided_witness :
    0 < 4 ∧ cmsSumDeltas [([97], 5)] < 2 ^ 32 ∧
      cmsTrueCount [([97], 5)] [97] ≤
        cmsEstimate (cmsApplyUpdates (newCountMinSketch 4 2) [([97], 5)]) [97] :=
  ⟨by decide, by decide, cms_estimate_one_sided 4 2 (by decide) [([97], 5)] [97] (by decide)⟩

/-- Counterexample to C2 as stated: the cells are uint32 counters, so two
  updates of 2^31 for the same key wrap the key's cells to 0; the estimate
  is then 0 while the true post-sampling count is 2^32. -/
theorem cms_estimate_counterexample :
    ¬ (cmsTrueCount [([97], 2 ^ 31), ([97], 2 ^ 31)] [97] ≤
        cmsEstimate (cmsApplyUpdates (newCountMinSketch 4 2)
          [([97], 2 ^ 31), ([97], 2 ^ 31)]) [97]) := by
  decide

/-! ### Measurement record (pkg/metrics)

  MetricPoint from the metrics package: timestamps become integers
  (nanoseconds since epoch, matching time.Time ordering), float64 values
  become rationals.  The Namespace field is renamed namespaceId because
  namespace is reserved in Lean. -/

structure MetricPoint where
  timestamp : Int
  clusterID : String
  namespaceId : String
  podName : String
  containerName : String
  metricName : String
  value : Rat
  unit : String
  labels : List (String × String)

/-- MetricPoint.IsAnomaly: record-level anomaly rule. -/
def metricIsAnomaly (mp : MetricPoint) : Bool :=
  if mp.metricName = "cpu_usage" ∧ mp.value > 0.9 then true
  else if mp.metricName = "memory_usage" ∧ mp.value > 0.85 then true
  else if mp.metricName = "pod_restarts" ∧ mp.value > 3 then true
  else false

/-- MetricPoint.GetKey: cluster/namespace/pod/metric. -/
def getMetricKey (mp : MetricPoint) : String :=
  mp.clusterID ++ "/" ++ mp.namespaceId ++ "/" ++ mp.podName ++ "/" ++ mp.metricName

/-! ### ReservoirSampler (internal/sampling/reservoir.go)

  capacity is a Go int; the constructor pre-allocates a slice of that
  capacity, which panics for negative values, so capacity is a Nat.
  The rand.Intn(count) draw of Add is an explicit oracle argument. -/

structure ReservoirSampler where
  capacity : Nat
  samples : List MetricPoint
  count : Nat

def newReservoirSampler (capacity : Nat) : ReservoirSampler :=
  { capacity := capacity, samples := [], count := 0 }

/-- Add(metric) with the random index j = rng.Intn(count) passed in:
  increment count; append while below capacity; otherwise overwrite slot
  j when j < capacity, else drop the record and return nil. -/
def reservoirAdd (rs : ReservoirSampler) (m : MetricPoint) (j : Nat) :
    ReservoirSampler × Option MetricPoint :=
  let rs := { rs with count := rs.count + 1 }
  if rs.samples.length < rs.capacity then
    ({ rs with samples := rs.samples ++ [m] }, some m)
  else if j < rs.capacity then
    ({ rs with samples := rs.samples.set j m }, some m)
  else
    (rs, none)

/-- A sequence of Add operations, each with its metric and its random
  index draw. -/
def reservoirAddAll (rs : ReservoirSampler) (ops : List (MetricPoint × Nat)) :
    ReservoirSampler :=
  ops.foldl (fun r op => (reservoirAdd r op.1 op.2).1) rs

theorem reservoirAdd_capacity (rs : ReservoirSampler) (m : MetricPoint) (j : Nat) :
    (reservoirAdd rs m j).1.capacity = rs.capacity := by
  rw [reservoirAdd]
  split
  · rfl
  · split <;> rfl

/-- One Add preserves the size bound. -/
theorem reservoirAdd_length_le (rs : ReservoirSampler) (m : MetricPoint) (j : Nat)
    (h : rs.samples.length ≤ rs.capacity) :
    (reservoirAdd rs m j).1.samples.length ≤ rs.capacity := by
  obtain ⟨cap, samples, count⟩ := rs
  rw [reservoirAdd]
  dsimp only at h ⊢
  split
  · simp only [List.length_append, List.length_cons, List.length_nil]
    omega
  · split
    · simpa [List.length_set] using h
    · simpa using h

/-- C5. For every plain reservoir sampler constructed with capacity K and
  every sequence of Add operations, the number of held samples never
  exceeds K.  (The statement quantifies over all operation sequences, so
  it bounds every intermediate state as well.) -/
theorem reservoir_size_le_capacity (K : Nat) (ops : List (MetricPoint × Nat)) :
    (reservoirAddAll (newReservoirSampler K) ops).samples.length ≤ K := by
  suffices h : ∀ (l : List (MetricPoint × Nat)) (rs : ReservoirSampler),
      rs.samples.length ≤ rs.capacity → rs.capacity = K →
      (reservoirAddAll rs l).samples.length ≤ K by
    exact h ops (newReservoirSampler K) (by simp [newReservoirSampler]) rfl
  intro l
  induction l with
  | nil => intro rs h hc; rw [reservoirAddAll]; simpa [hc] using h
  | cons op rest ih =>
      intro rs h hc
      have hstep : reservoirAddAll rs (op :: rest) =
          reservoirAddAll (reservoirAdd rs op.1 op.2).1 rest := rfl
      rw [hstep]
      refine ih _ ?_ ?_
      · rw [reservoirAdd_capacity]
        exact reservoirAdd_length_le rs op.1 op.2 h
      · rw [reservoirAdd_capacity, hc]

/-! ### WeightedReservoirSampler (internal/sampling/reservoir.go)

  AddWeighted draws u = rng.Float64() and computes key = u^(1/weight),
  a real-valued power; the embedding receives the computed key as the
  oracle argument (the draw happens after the weight guard, so the guard
  behaviour is unaffected).  The Go method returns nothing: a
  non-positive weight makes it return early without touching the state
  and without producing any error value. -/

structure WeightedSample where
  metric : MetricPoint
  weight : Rat
  key : Rat

structure WeightedReservoirSampler where
  capacity : Nat
  samples : List WeightedSample

def newWeightedReservoirSampler (capacity : Nat) : WeightedReservoirSampler :=
  { capacity := capacity, samples := [] }

/-- Index and key of the minimum-key sample (the Go linear scan starting
  from slot 0, strict less-than comparison). -/
def wrsMinScan (samples : List WeightedSample) (start : Nat) (minIdx : Nat)
    (minKey : Rat) : Nat × Rat :=
  match samples with
  | [] => (minIdx, minKey)
  | s :: rest =>
      if s.key < minKey then wrsMinScan rest (start + 1) start s.key
      else wrsMinScan rest (start + 1) minIdx minKey

/-- AddWeighted(metric, weight) with the A-Res key passed as oracle. -/
def wrsAddWeighted (wrs : WeightedReservoirSampler) (m : MetricPoint) (weight : Rat)
    (key : Rat) : WeightedReservoirSampler :=
  if weight ≤ 0 then wrs
  else
    let sample : WeightedSample := { metric := m, weight := weight, key := key }
    if wrs.samples.length < wrs.capacity then
      { wrs with samples := wrs.samples ++ [sample] }
    else
      match wrs.samples with
      | [] => wrs
      | s0 :: rest =>
          let mk := wrsMinScan rest 1 0 s0.key
          if mk.2 < key then { wrs with samples := wrs.samples.set mk.1 sample }
          else wrs

/-- C8 amended: a non-positive weight (in particular a negative one) makes
  AddWeighted return early, leaving the reservoir state unchanged; no
  error value is produced, since the Go method has no error result at
  all. -/
theorem wrs_negative_weight_ignored (wrs : WeightedReservoirSampler) (m : MetricPoint)
    (weight key : Rat) (h : weight ≤ 0) :
    wrsAddWeighted wrs m weight key = wrs := by
  rw [wrsAddWeighted, if_pos h]

/-- Concrete record used by the weighted-reservoir claims. -/
def mpExample : MetricPoint :=
  { timestamp := 0, clusterID := "c1", namespaceId := "ns", podName := "p1",
    containerName := "ct", metricName := "cpu_usage", value := 0.5,
    unit := "percent", labels := [] }

/-- Counterexample to C8 as stated: adding with weight -1 to a fresh
  weighted reservoir is silently ignored: the call leaves the state
  exactly unchanged and, the Go method being void, surfaces no
  invalid-argument error to the caller. -/
theorem wrs_negative_weight_counterexample :
    wrsAddWeighted (newWeightedReservoirSampler 2) mpExample (-1) (1 / 2) =
      newWeightedReservoirSampler 2 := by
  rw [wrsAddWeighted, if_pos (by norm_num)]

/-- Witness for C8 amended. -/
theorem wrs_negative_weight_ignored_witness :
    (-1 : Rat) ≤ 0 ∧
      wrsAddWeighted (newWeightedReservoirSampler 3) mpExample (-1) (1 / 2) =
        newWeightedReservoirSampler 3 :=
  ⟨by norm_num,
   wrs_negative_weight_ignored (newWeightedReservoirSampler 3) mpExample (-1) (1 / 2)
     (by norm_num)⟩

/-! ### WindowStats (internal/sampling, adaptive sampler file) -/

structure WindowStats where
  values : List Rat
  timestamps : List Int
  windowSize : Int
  sum : Rat
  sumSquares : Rat

def newWindowStats (windowSize : Int) : WindowStats :=
  { values := [], timestamps := [], windowSize := windowSize, sum := 0, sumSquares := 0 }

/-- cleanup(currentTime): keepFrom is the first index whose timestamp is
  after the cutoff (0 when no timestamp is, reproducing the Go loop that
  only sets keepFrom at the first successful test); when positive, the
  evicted prefix is subtracted from the running sums and dropped. -/
def windowStatsCleanup (ws : WindowStats) (currentTime : Int) : WindowStats :=
  let cutoff := currentTime - ws.windowSize
  let keepFrom := (ws.timestamps.findIdx? (fun ts => cutoff < ts)).getD 0
  if 0 < keepFrom then
    { ws with
      values := ws.values.drop keepFrom,
      timestamps := ws.timestamps.drop keepFrom,
      sum := ws.sum - ((ws.values.take keepFrom).foldl (fun a v => a + v) 0),
      sumSquares := ws.sumSquares -
        ((ws.values.take keepFrom).foldl (fun a v => a + v * v) 0) }
  else ws

/-- Add(value, timestamp): push, update running sums, then cleanup. -/
def windowStatsAdd (ws : WindowStats) (value : Rat) (timestamp : Int) : WindowStats :=
  windowStatsCleanup
    { ws with
      values := ws.values ++ [value],
      timestamps := ws.timestamps ++ [timestamp],
      sum := ws.sum + value,
      sumSquares := ws.sumSquares + value * value }
    timestamp

/-- GetVariance: population form sum_squares/n - mean^2, 0 below two
  values. -/
def windowStatsVariance (ws : WindowStats) : Rat :=
  if ws.values.length < 2 then 0
  else
    let n : Rat := ws.values.length
    let mean := ws.sum / n
    ws.sumSquares / n - mean * mean

/-! ### AnomalyDetector (internal/sampling, adaptive sampler file) -/

structure AnomalyThreshold where
  metricName : String
  upperBound : Rat
  lowerBound : Rat
  zScore : Rat

/-- The default thresholds installed by NewAnomalyDetector (the only
  constructor used by the sampler). -/
def anomalyThresholds (name : String) : Option AnomalyThreshold :=
  if name = "cpu_usage" then
    some { metricName := "cpu_usage", upperBound := 0.9, lowerBound := 0, zScore := 3 }
  else if name = "memory_usage" then
    some { metricName := "memory_usage", upperBound := 0.85, lowerBound := 0, zScore := 3 }
  else if name = "disk_usage" then
    some { metricName := "disk_usage", upperBound := 0.9, lowerBound := 0, zScore := 2.5 }
  else if name = "network_latency" then
    some { metricName := "network_latency", upperBound := 1000, lowerBound := 0, zScore := 3 }
  else none

/-- IsAnomaly: the record-level rule, or the value outside the configured
  bounds for its metric name. -/
def detectorIsAnomaly (mp : MetricPoint) : Bool :=
  if metricIsAnomaly mp then true
  else
    match anomalyThresholds mp.metricName with
    | some t =>
        if mp.value > t.upperBound then true
        else if mp.value < t.lowerBound then true
        else false
    | none => false

/-! ### AdaptiveSampler (internal/sampling, adaptive sampler file) -/

structure SamplingConfig where
  baseRate : Rat
  anomalyRate : Rat
  windowSize : Int
  reservoirSize : Nat
  stratumWeights : String → Option Rat

structure AdaptiveSampler where
  config : SamplingConfig
  reservoirs : String → Option ReservoirSampler
  statistics : String → Option WindowStats
  totalProcessed : Nat
  totalSampled : Nat

def newAdaptiveSampler (config : SamplingConfig) : AdaptiveSampler :=
  { config := config, reservoirs := fun _ => none, statistics := fun _ => none,
    totalProcessed := 0, totalSampled := 0 }

/-- getStratum: cluster/namespace/metric. -/
def getStratum (mp : MetricPoint) : String :=
  mp.clusterID ++ "/" ++ mp.namespaceId ++ "/" ++ mp.metricName

/-- calculateSamplingRate: base rate, raised to anomaly rate on anomaly,
  scaled by the stratum weight and the stratum variance, doubled for hot
  cpu/memory, clamped to [0.001, 1]. -/
def calculateSamplingRate (as : AdaptiveSampler) (mp : MetricPoint) : Rat :=
  let baseRate := as.config.baseRate
  let baseRate := if detectorIsAnomaly mp then max baseRate as.config.anomalyRate else baseRate
  let stratum := getStratum mp
  let baseRate :=
    match as.config.stratumWeights stratum with
    | some weight => baseRate * weight
    | none => baseRate
  let baseRate :=
    match as.statistics stratum with
    | some stats => baseRate * (1 + windowStatsVariance stats / 100)
    | none => baseRate
  let baseRate :=
    if (mp.metricName = "cpu_usage" ∨ mp.metricName = "memory_usage") ∧ mp.value > 0.8 then
      baseRate * 2
    else baseRate
  min (max baseRate 0.001) 1

/-- ShouldSample with the uniform draw u = rng.Float64() passed in:
  increments totalProcessed, admits when u < rate, counts admissions. -/
def shouldSample (as : AdaptiveSampler) (mp : MetricPoint) (u : Rat) :
    AdaptiveSampler × Bool :=
  let as := { as with totalProcessed := as.totalProcessed + 1 }
  let samplingRate := calculateSamplingRate as mp
  if u < samplingRate then
    ({ as with totalSampled := as.totalSampled + 1 }, true)
  else (as, false)

/-- updateStatistics: lazily create the stratum window stats, then Add. -/
def updateStatistics (as : AdaptiveSampler) (mp : MetricPoint) : AdaptiveSampler :=
  let stratum := getStratum mp
  let stats := (as.statistics stratum).getD (newWindowStats as.config.windowSize)
  { as with statistics := fun s =>
      if s = stratum then some (windowStatsAdd stats mp.value mp.timestamp)
      else as.statistics s }

/-- getOrCreateReservoir. -/
def getOrCreateReservoir (as : AdaptiveSampler) (stratum : String) : ReservoirSampler :=
  (as.reservoirs stratum).getD (newReservoirSampler as.config.reservoirSize)

/-- Sample(metric) with the two random draws passed in (u for the rate
  decision, j for the reservoir replacement): on admission, update the
  stratum statistics and append to the stratum reservoir; the returned
  option is the surviving sample (none when the reservoir discarded the
  record), and Go additionally returns sampled != nil. -/
def samplerSample (as : AdaptiveSampler) (mp : MetricPoint) (u : Rat) (j : Nat) :
    AdaptiveSampler × Option MetricPoint :=
  match shouldSample as mp u with
  | (as1, false) => (as1, none)
  | (as1, true) =>
      let as2 := updateStatistics as1 mp
      let stratum := getStratum mp
      let reservoir := getOrCreateReservoir as2 stratum
      let added := reservoirAdd reservoir mp j
      ({ as2 with reservoirs := fun s =>
          if s = stratum then some added.1 else as2.reservoirs s },
       added.2)

/-- GetEffectiveSamplingRate: the configured base rate before any record
  was processed, the observed ratio afterwards. -/
def getEffectiveSamplingRate (as : AdaptiveSampler) : Rat :=
  if as.totalProcessed = 0 then as.config.baseRate
  else (as.totalSampled : Rat) / (as.totalProcessed : Rat)

/-- C10. When zero records have been processed, GetEffectiveSamplingRate
  returns the configured base rate: the totalProcessed = 0 case is
  handled before the division, so the operation is total and never
  divides by zero. -/
theorem effective_rate_zero_processed (as : AdaptiveSampler)
    (h : as.totalProcessed = 0) :
    getEffectiveSamplingRate as = as.config.baseRate := by
  rw [getEffectiveSamplingRate, if_pos h]

/-- Witness for C10: a freshly constructed sampler. -/
def samplingConfigDefault : SamplingConfig :=
  { baseRate := 0.05, anomalyRate := 0.5, windowSize := 3600000000000,
    reservoirSize := 10000, stratumWeights := fun _ => none }

theorem effective_rate_zero_processed_witness :
    (newAdaptiveSampler samplingConfigDefault).totalProcessed = 0 ∧
      getEffectiveSamplingRate (newAdaptiveSampler samplingConfigDefault) =
        (newAdaptiveSampler samplingConfigDefault).config.baseRate :=
  ⟨rfl, effective_rate_zero_processed (newAdaptiveSampler samplingConfigDefault) rfl⟩

/-! ### QueryEngine (internal/engine/query_engine.go)

  The engine owns the three sketches, the adaptive sampler, the per-key
  sample lists (a Go map, modelled as an association list so the lists
  can be enumerated), and its stats.  Of the stats only total_samples is
  touched by ProcessMetric; the query counters and the rolling latency
  belong to the ExecuteQuery timing wrapper, which measures wall-clock
  time and is not part of the embedded state. -/

structure QueryEngine where
  hll : HyperLogLog
  cms : CountMinSketch
  bloom : BloomFilter
  sampler : AdaptiveSampler
  samples : List (String × List MetricPoint)
  totalSamples : Nat

structure QueryEngineConfig where
  hllPrecision : Nat
  cmsWidth : Nat
  cmsDepth : Nat
  bloomSize : Nat
  bloomHashes : Nat
  samplingConfig : SamplingConfig

def newQueryEngine (config : QueryEngineConfig) : QueryEngine :=
  { hll := newHyperLogLog config.hllPrecision,
    cms := newCountMinSketch config.cmsWidth config.cmsDepth,
    bloom := newBloomFilter config.bloomSize config.bloomHashes,
    sampler := newAdaptiveSampler config.samplingConfig,
    samples := [],
    totalSamples := 0 }

/-- Go map read qe.samples[key] (missing key yields the empty list). -/
def samplesLookup (l : List (String × List MetricPoint)) (k : String) :
    List MetricPoint :=
  match l.find? (fun p => p.1 = k) with
  | some p => p.2
  | none => []

/-- Go map write qe.samples[key] = v. -/
def samplesStore (l : List (String × List MetricPoint)) (k : String)
    (v : List MetricPoint) : List (String × List MetricPoint) :=
  if l.any (fun p => p.1 = k) then l.map (fun p => if p.1 = k then (k, v) else p)
  else l ++ [(k, v)]

/-- ProcessMetric(metric) with the sampler's two random draws passed in:
  delegate to the sampler; when the call returns a surviving sample,
  update the three sketches with the derived key and append the record
  to its key's sample list, keeping only the newest 1000 entries; always
  count the call in total_samples. -/
def processMetric (qe : QueryEngine) (mp : MetricPoint) (u : Rat) (j : Nat) :
    QueryEngine :=
  let sres := samplerSample qe.sampler mp u j
  let qe1 := { qe with sampler := sres.1 }
  let qe2 :=
    match sres.2 with
    | some sampled =>
        let keyBytes := strBytes (getMetricKey sampled)
        let withSketches := { qe1 with
          hll := hllAdd qe1.hll keyBytes,
          cms := cmsUpdate qe1.cms keyBytes 1,
          bloom := bfAdd qe1.bloom keyBytes }
        let key := getMetricKey sampled
        let lst := samplesLookup withSketches.samples key ++ [sampled]
        let lst := if 1000 < lst.length then lst.drop (lst.length - 1000) else lst
        { withSketches with samples := samplesStore withSketches.samples key lst }
    | none => qe1
  { qe2 with totalSamples := qe2.totalSamples + 1 }

/-! ### Claim C1: admitted records and the sketches -/

/-- Add returns the inserted copy exactly when the reservoir still has
  room or the replacement index falls inside the reservoir. -/
theorem reservoirAdd_some (rs : ReservoirSampler) (mp : MetricPoint) (j : Nat)
    (h : rs.samples.length < rs.capacity ∨ j < rs.capacity) :
    (reservoirAdd rs mp j).2 = some mp := by
  obtain ⟨cap, samples, count⟩ := rs
  rw [reservoirAdd]
  dsimp only at h ⊢
  rcases h with h | h
  · rw [if_pos h]
  · by_cases h1 : samples.length < cap
    · rw [if_pos h1]
    · rw [if_neg h1, if_pos h]

/-- Add returns nil exactly when the reservoir is full and the
  replacement index falls outside it. -/
theorem reservoirAdd_none (rs : ReservoirSampler) (mp : MetricPoint) (j : Nat)
    (h1 : ¬ rs.samples.length < rs.capacity) (h2 : ¬ j < rs.capacity) :
    (reservoirAdd rs mp j).2 = none := by
  obtain ⟨cap, samples, count⟩ := rs
  rw [reservoirAdd]
  dsimp only at h1 h2 ⊢
  rw [if_neg h1, if_neg h2]

/-- On admission (u below the computed rate) Sample returns the record
  exactly when the stratum's reservoir keeps it. -/
theorem samplerSample_admitted (as : AdaptiveSampler) (mp : MetricPoint) (u : Rat)
    (j : Nat) (hadm : u < calculateSamplingRate as mp)
    (hsurvive : (getOrCreateReservoir as (getStratum mp)).samples.length <
        (getOrCreateReservoir as (getStratum mp)).capacity ∨
      j < (getOrCreateReservoir as (getStratum mp)).capacity) :
    (samplerSample as mp u j).2 = some mp := by
  have hrate : calculateSamplingRate
      { as with totalProcessed := as.totalProcessed + 1 } mp =
      calculateSamplingRate as mp := rfl
  have hss : shouldSample as mp u =
      ({ { as with totalProcessed := as.totalProcessed + 1 } with
          totalSampled := as.totalSampled + 1 }, true) := by
    simp only [shouldSample]
    rw [hrate, if_pos hadm]
  simp only [samplerSample, hss]
  exact reservoirAdd_some _ mp j hsurvive

/-- On admission Sample returns nil when the reservoir discards the
  record. -/
theorem samplerSample_discarded (as : AdaptiveSampler) (mp : MetricPoint) (u : Rat)
    (j : Nat) (hadm : u < calculateSamplingRate as mp)
    (hfull : ¬ (getOrCreateReservoir as (getStratum mp)).samples.length <
        (getOrCreateReservoir as (getStratum mp)).capacity)
    (hout : ¬ j < (getOrCreateReservoir as (getStratum mp)).capacity) :
    (samplerSample as mp u j).2 = none := by
  have hrate : calculateSamplingRate
      { as with totalProcessed := as.totalProcessed + 1 } mp =
      calculateSamplingRate as mp := rfl
  have hss : shouldSample as mp u =
      ({ { as with totalProcessed := as.totalProcessed + 1 } with
          totalSampled := as.totalSampled + 1 }, true) := by
    simp only [shouldSample]
    rw [hrate, if_pos hadm]
  simp only [samplerSample, hss]
  exact reservoirAdd_none _ mp j hfull hout

/-- C1 amended. A record admitted by the adaptive sampler (u below the
  computed rate) updates the cardinality, frequency and membership
  sketches with the derived key cluster/namespace/pod/metric provided the
  record also survives the reservoir insertion (Add returns the inserted
  copy); the surviving-sample condition is the extra hypothesis the code
  requires. -/
theorem processMetric_updates_sketches (qe : QueryEngine) (mp : MetricPoint)
    (u : Rat) (j : Nat) (hadm : u < calculateSamplingRate qe.sampler mp)
    (hsurvive : (getOrCreateReservoir qe.sampler (getStratum mp)).samples.length <
        (getOrCreateReservoir qe.sampler (getStratum mp)).capacity ∨
      j < (getOrCreateReservoir qe.sampler (getStratum mp)).capacity) :
    (processMetric qe mp u j).hll = hllAdd qe.hll (strBytes (getMetricKey mp)) ∧
    (processMetric qe mp u j).cms = cmsUpdate qe.cms (strBytes (getMetricKey mp)) 1 ∧
    (processMetric qe mp u j).bloom = bfAdd qe.bloom (strBytes (getMetricKey mp)) := by
  have hsome := samplerSample_admitted qe.sampler mp u j hadm hsurvive
  rcases hsp : samplerSample qe.sampler mp u j with ⟨S, res⟩
  rw [hsp] at hsome
  have hres : res = some mp := hsome
  subst hres
  refine ⟨?_, ?_, ?_⟩ <;>
    simp only [processMetric, hsp]

/-- A record admitted by the rate draw but discarded by the reservoir
  leaves all three sketches untouched. -/
theorem processMetric_discarded (qe : QueryEngine) (mp : MetricPoint)
    (u : Rat) (j : Nat) (hadm : u < calculateSamplingRate qe.sampler mp)
    (hfull : ¬ (getOrCreateReservoir qe.sampler (getStratum mp)).samples.length <
        (getOrCreateReservoir qe.sampler (getStratum mp)).capacity)
    (hout : ¬ j < (getOrCreateReservoir qe.sampler (getStratum mp)).capacity) :
    (processMetric qe mp u j).hll = qe.hll ∧
    (processMetric qe mp u j).cms = qe.cms ∧
    (processMetric qe mp u j).bloom = qe.bloom := by
  have hnone := samplerSample_discarded qe.sampler mp u j hadm hfull hout
  rcases hsp : samplerSample qe.sampler mp u j with ⟨S, res⟩
  rw [hsp] at hnone
  have hres : res = none := hnone
  subst hres
  refine ⟨?_, ?_, ?_⟩ <;>
    simp only [processMetric, hsp]

/-- Sampling configuration with reservoir capacity 0 (legal in Go:
  make([]*T, 0, 0)); every admitted record is then discarded by the
  reservoir. -/
def samplingConfigZeroReservoir : SamplingConfig :=
  { baseRate := 0.05, anomalyRate := 0.5, windowSize := 3600000000000,
    reservoirSize := 0, stratumWeights := fun _ => none }

def engineZeroReservoir : QueryEngine :=
  newQueryEngine
    { hllPrecision := 14, cmsWidth := 2048, cmsDepth := 5,
      bloomSize := 1000000, bloomHashes := 5,
      samplingConfig := samplingConfigZeroReservoir }

/-- The benign example record is admitted whenever the uniform draw is 0:
  its computed sampling rate is the clamped base rate 0.05. -/
theorem engineZeroReservoir_rate_pos :
    (0 : Rat) < calculateSamplingRate engineZeroReservoir.sampler mpExample := by
  norm_num [calculateSamplingRate, detectorIsAnomaly, metricIsAnomaly,
    anomalyThresholds, mpExample, getStratum, engineZeroReservoir, newQueryEngine,
    newAdaptiveSampler, samplingConfigZeroReservoir, max_def, min_def]

/-- Counterexample to C1 as stated: with a zero-capacity reservoir the
  example record is admitted by the adaptive sampler (u = 0 is below the
  computed rate), yet ingest leaves the membership sketch without the
  derived key: Contains still answers false after ProcessMetric, so the
  admitted record was not added to the sketches. -/
theorem processMetric_admitted_not_added_counterexample :
    (0 : Rat) < calculateSamplingRate engineZeroReservoir.sampler mpExample ∧
      bfContains (processMetric engineZeroReservoir mpExample 0 0).bloom
        (strBytes (getMetricKey mpExample)) = false := by
  refine ⟨engineZeroReservoir_rate_pos, ?_⟩
  have h := processMetric_discarded engineZeroReservoir mpExample 0 0
    engineZeroReservoir_rate_pos (by decide) (by decide)
  rw [h.2.2]
  decide

/-- The default configuration of the spec (base rate 0.05, reservoir
  10000). -/
def engineDefault : QueryEngine :=
  newQueryEngine
    { hllPrecision := 14, cmsWidth := 2048, cmsDepth := 5,
      bloomSize := 1000000, bloomHashes := 5,
      samplingConfig := samplingConfigDefault }

/-- Witness for C1 amended: on the default engine the first record is
  admitted at u = 0, survives the (empty, capacity 10000) reservoir, and
  all three sketches receive the derived key. -/
theorem processMetric_updates_sketches_witness :
    (processMetric engineDefault mpExample 0 0).hll =
        hllAdd engineDefault.hll (strBytes (getMetricKey mpExample)) ∧
      (processMetric engineDefault mpExample 0 0).cms =
        cmsUpdate engineDefault.cms (strBytes (getMetricKey mpExample)) 1 ∧
      (processMetric engineDefault mpExample 0 0).bloom =
        bfAdd engineDefault.bloom (strBytes (getMetricKey mpExample)) :=
  processMetric_updates_sketches engineDefault mpExample 0 0
    (by norm_num [calculateSamplingRate, detectorIsAnomaly, metricIsAnomaly,
      anomalyThresholds, mpExample, getStratum, engineDefault, newQueryEngine,
      newAdaptiveSampler, samplingConfigDefault, max_def, min_def])
    (by decide)

/-! ### Query model and the percentile query (claim C7)

  QueryRequest / QueryResult from pkg/metrics.  The zero value of
  time.Time (IsZero) is modelled as none; ProcessingTime and the result
  Timestamp are stamped by the ExecuteQuery wall-clock wrapper and are
  not part of the embedded result. -/

inductive QueryType where
  | countDistinct
  | sum
  | average
  | percentile
  | topK
  | membership
  | frequencyCount
deriving DecidableEq

structure QueryRequest where
  id : String
  query : String
  queryType : QueryType
  timeStart : Option Int
  timeEnd : Option Int
  filters : List (String × String)
  errorBound : Rat
  confidence : Rat

inductive ResultPayload where
  | percentileRecord (percentile : Rat) (value : Rat) (sampleSize : Nat)

structure QueryResult where
  id : String
  query : String
  result : Option ResultPayload
  errorEst : Option Rat
  confidence : Option Rat
  sampleSize : Nat
  isApproximate : Bool

/-- matchesFilters: the timestamp must not lie strictly before the start
  nor strictly after the end (when set), and every filter entry whose key
  is a supported facet must match; unknown filter keys are ignored. -/
def matchesFilters (mp : MetricPoint) (req : QueryRequest) : Bool :=
  if req.timeStart.any (fun s => mp.timestamp < s) then false
  else if req.timeEnd.any (fun e => e < mp.timestamp) then false
  else req.filters.all (fun kv =>
    if kv.1 = "cluster_id" then mp.clusterID = kv.2
    else if kv.1 = "namespace" then mp.namespaceId = kv.2
    else if kv.1 = "metric_name" then mp.metricName = kv.2
    else if kv.1 = "pod_name" then mp.podName = kv.2
    else true)

/-- getFilteredSamples: concatenate every per-key sample list, keep the
  records matching the request.  (Go iterates the map in unspecified
  order; the association-list order stands in for one such enumeration,
  and the claims below do not depend on it.) -/
def getFilteredSamples (qe : QueryEngine) (req : QueryRequest) : List MetricPoint :=
  ((qe.samples.map Prod.snd).flatten).filter (fun mp => matchesFilters mp req)

/-- strings.Index for a single character: index of the first occurrence,
  -1 when absent. -/
def goIndexOfChar (s : List Char) (c : Char) : Int :=
  match s.findIdx? (fun x => x = c) with
  | some i => (i : Int)
  | none => -1

def hasPrefixChars : List Char → List Char → Bool
  | _, [] => true
  | [], _ :: _ => false
  | c :: cs, p :: ps => if c = p then hasPrefixChars cs ps else false

/-- strings.Contains. -/
def goContainsSub (s pat : List Char) : Bool :=
  (List.range (s.length + 1)).any (fun i => hasPrefixChars (s.drop i) pat)

def parseDigitsAux : List Char → Nat → Option Nat
  | [], acc => some acc
  | c :: cs, acc =>
      if '0' ≤ c ∧ c ≤ '9' then parseDigitsAux cs (acc * 10 + (c.toNat - 48))
      else none

def parseDigits (cs : List Char) : Option Nat :=
  match cs with
  | [] => none
  | _ => parseDigitsAux cs 0

/-- Models strconv.ParseFloat on the plain decimal literals the query
  grammar produces: optional sign, digits, optional fractional part; any
  other input fails, and in the extractor a parse failure falls back to
  the default exactly as in Go. -/
def goParseFloat (cs : List Char) : Option Rat :=
  let signed : Int × List Char :=
    match cs with
    | '-' :: r => (-1, r)
    | '+' :: r => (1, r)
    | r => (1, r)
  match signed.2.splitOn '.' with
  | [d] => (parseDigits d).map (fun n => mkRat (signed.1 * n) 1)
  | [d1, d2] =>
      if d1 = [] ∧ d2 = [] then none
      else
        match (if d1 = [] then some 0 else parseDigits d1),
              (if d2 = [] then some 0 else parseDigits d2) with
        | some a, some b =>
            some (mkRat (signed.1 * (a * 10 ^ d2.length + b)) (10 ^ d2.length))
        | _, _ => none
  | _ => none

/-- extractPercentileValue: when the query mentions PERCENTILE, parse the
  number between the first opening and the first closing parenthesis;
  default 95 when absent or unparsable. -/
def extractPercentileValue (query : String) : Rat :=
  let q := query.data
  if goContainsSub q "PERCENTILE".data then
    let start := goIndexOfChar q '(' + 1
    let stop := goIndexOfChar q ')'
    if 0 < start ∧ start < stop then
      match goParseFloat ((q.drop start.toNat).take (stop - start).toNat) with
      | some v => v
      | none => 95
    else 95
  else 95

/-- Insertion into a sorted list; sortRats models sort.Float64s
  (ascending). -/
def insertSorted (x : Rat) : List Rat → List Rat
  | [] => [x]
  | y :: ys => if x ≤ y then x :: y :: ys else y :: insertSorted x ys

def sortRats (l : List Rat) : List Rat :=
  l.foldr insertSorted []

/-- executePercentile: empty filter-matching sample set first (zero
  samples, nil payload, non-approximate, no error); then the percentile
  range check (the Go error text carries the offending value via
  fmt.Errorf; the message is modelled by its constant prefix); then the
  sorted linear-interpolated order statistic. -/
def executePercentile (qe : QueryEngine) (req : QueryRequest) :
    Except String QueryResult :=
  let samples := getFilteredSamples qe req
  if samples.length = 0 then
    .ok { id := req.id, query := req.query, result := none, errorEst := none,
          confidence := none, sampleSize := 0, isApproximate := false }
  else
    let percentileValue := extractPercentileValue req.query
    if percentileValue < 0 ∨ percentileValue > 100 then
      .error "invalid percentile value"
    else
      let values := samples.map (fun s => s.value)
      let sorted := sortRats values
      let index := percentileValue / 100 * ((sorted.length : Rat) - 1)
      let lowerIndex := ⌊index⌋
      let upperIndex := ⌈index⌉
      let res :=
        if lowerIndex = upperIndex then sorted.getD lowerIndex.toNat 0
        else
          let weight := index - (lowerIndex : Rat)
          sorted.getD lowerIndex.toNat 0 * (1 - weight) +
            sorted.getD upperIndex.toNat 0 * weight
      .ok { id := req.id, query := req.query,
            result := some (.percentileRecord percentileValue res samples.length),
            errorEst := none, confidence := none,
            sampleSize := samples.length, isApproximate := true }

/-- C7. A percentile query whose text parses to a value outside [0, 100]
  yields an invalid-argument error, unless the filter-matching sample set
  is empty, in which case the zero-sample, non-approximate result with
  nil payload is returned instead of an error (the emptiness test comes
  first in the code).  ExecuteQuery routes requests with the percentile
  query type to this handler and propagates its error unchanged, adding
  only the wall-clock fields on success. -/
theorem executePercentile_spec (qe : QueryEngine) (req : QueryRequest) :
    ((getFilteredSamples qe req).length ≠ 0 →
      (extractPercentileValue req.query < 0 ∨ 100 < extractPercentileValue req.query) →
      executePercentile qe req = .error "invalid percentile value")
    ∧ ((getFilteredSamples qe req).length = 0 →
      executePercentile qe req =
        .ok { id := req.id, query := req.query, result := none, errorEst := none,
              confidence := none, sampleSize := 0, isApproximate := false }) := by
  constructor
  · intro hne hout
    simp only [executePercentile]
    rw [if_neg hne, if_pos hout]
  · intro hemp
    simp only [executePercentile]
    rw [if_pos hemp]

/-- Engine holding one stored sample, for the non-empty percentile case. -/
def engineWithSample : QueryEngine :=
  { engineDefault with samples := [(getMetricKey mpExample, [mpExample])] }

def reqPercentileBad : QueryRequest :=
  { id := "q1", query := "PERCENTILE(150)", queryType := .percentile,
    timeStart := none, timeEnd := none, filters := [], errorBound := 0,
    confidence := 0 }

/-- Witness for C7: the same out-of-range query errors on an engine with
  one matching sample and returns the zero-sample result on an engine
  with no samples at all. -/
theorem executePercentile_spec_witness :
    executePercentile engineWithSample reqPercentileBad =
        .error "invalid percentile value" ∧
      executePercentile engineDefault reqPercentileBad =
        .ok { id := reqPercentileBad.id, query := reqPercentileBad.query,
              result := none, errorEst := none, confidence := none,
              sampleSize := 0, isApproximate := false } :=
  ⟨(executePercentile_spec engineWithSample reqPercentileBad).1 (by decide) (by decide),
   (executePercentile_spec engineDefault reqPercentileBad).2 (by decide)⟩
